import Mathlib

/-!
Shallow embedding of the Connect-4 server core (src/server.py).

The grid engine (`init_board`, `board_drop`, `check_win`, the inline draw
check), the per-room MOVE state machine from `handle_client` (lines
376-420), `Room.other` and the turn pointer, the matchmaker pairing loop,
the `recv_line` / main-read-loop behaviour on malformed JSON, and
`ClientConnection.send` failure handling are each translated into pure
Lean functions.  Boards are row-major lists of rows, row 0 is the top
row, cells hold 0 (empty), 1 (slot 1) or 2 (slot 2), exactly as in the
Python source.
-/

/-- server.py line 132. -/
def ROWS : Nat := 6

/-- server.py line 133. -/
def COLS : Nat := 7

/-- Row-major board, row 0 at the top (server.py `init_board`). -/
abbrev Board := List (List Nat)

/-- server.py lines 135-136: 6x7 matrix of zeros. -/
def init_board : Board := List.replicate ROWS (List.replicate COLS 0)

/-- Read `board[r][c]`, defaulting to 0 out of range (indices in the
source are always in range). -/
def getCell (b : Board) (r c : Nat) : Nat := (b.getD r []).getD c 0

/-- Write `board[r][c] = v`. -/
def setCell (b : Board) (r c v : Nat) : Board :=
  b.set r ((b.getD r []).set c v)

/-- The scan of `board_drop` over a given list of row indices
(server.py lines 143-146: `for r in range(ROWS - 1, -1, -1)`). -/
def board_drop_aux (b : Board) (col pid : Nat) : List Nat → Option Nat × Board
  | [] => (none, b)
  | r :: rs =>
    if getCell b r col = 0 then (some r, setCell b r col pid)
    else board_drop_aux b col pid rs

/-- server.py lines 138-147: drop a piece for `pid` into `col`, scanning
from the bottom row (index ROWS-1) upward; returns the filled row, or
`none` with the board untouched when the column is full. -/
def board_drop (b : Board) (col pid : Nat) : Option Nat × Board :=
  board_drop_aux b col pid (List.range ROWS).reverse

/-- The bounds test of the `while` loops in `check_win`
(server.py lines 155 and 159): `0 <= rr < ROWS and 0 <= cc < COLS`. -/
def inBounds (r c : Int) : Bool :=
  decide (0 ≤ r) && decide (r < (ROWS : Int)) && decide (0 ≤ c) && decide (c < (COLS : Int))

/-- One `while` condition of `check_win`: in bounds and `board[rr][cc] == pid`. -/
def cellOk (b : Board) (pid : Nat) (r c : Int) : Bool :=
  inBounds r c && (getCell b r.toNat c.toNat == pid)

/-- One `while` loop of `check_win` (server.py lines 154-157 and 158-161):
the number of consecutive cells equal to `pid`, walking from `(rr, cc)` in
steps of `(dr, dc)`.  The fuel `ROWS + COLS` strictly exceeds the length of
any in-bounds walk, so it never truncates the loop. -/
def countDir (b : Board) (pid : Nat) (dr dc : Int) : Nat → Int → Int → Nat
  | 0, _, _ => 0
  | fuel + 1, rr, cc =>
    if cellOk b pid rr cc then 1 + countDir b pid dr dc fuel (rr + dr) (cc + dc) else 0

/-- server.py line 151: the four axis directions. -/
def directions : List (Int × Int) := [(0, 1), (1, 0), (1, 1), (1, -1)]

/-- server.py lines 149-164: starting from count 1 at `(r, c)`, extend in
direction `(dr, dc)` and in the opposite direction, and report a win when
some axis reaches a count of at least 4. -/
def check_win (b : Board) (r c : Int) (pid : Nat) : Bool :=
  directions.any fun d =>
    decide (4 ≤ 1 + countDir b pid d.1 d.2 (ROWS + COLS) (r + d.1) (c + d.2)
                  + countDir b pid (-d.1) (-d.2) (ROWS + COLS) (r - d.1) (c - d.2))

/-- server.py line 410: `all(room.board[0][c] != 0 for c in range(COLS))`. -/
def check_draw (b : Board) : Bool :=
  (List.range COLS).all fun c => getCell b 0 c != 0

/-- The game-relevant state of server.py's `Room`: board, turn pointer and
ended flag (lines 176-180). -/
structure Room where
  board : Board
  current : Nat
  ended : Bool
deriving DecidableEq

/-- `Room.__init__`: empty board, slot 1 to move, not ended. -/
def Room.init : Room := { board := init_board, current := 1, ended := false }

/-- server.py lines 182-183: `Room.other`. -/
def other (pid : Nat) : Nat := if pid = 2 then 1 else 2

/-- Messages the MOVE branch (and the read loop) can send, keeping the
wire-level type tags distinct: ERROR, INVALID, ACK, UPDATE, WIN, DRAW,
PONG (server.py lines 383-419, 340, 114). -/
inductive SrvMsg where
  | ack
  | invalid (reason : String)
  | error (reason : String)
  | update (board : Board) (next_turn : Nat)
  | win (winner : Nat)
  | draw
  | pong
deriving DecidableEq

/-- Result of processing one MOVE: the messages sent (to the mover, or
broadcast) in order, and the room state afterwards. -/
structure MoveRes where
  msgs : List SrvMsg
  room : Room
deriving DecidableEq

/-- server.py lines 376-420, the MOVE branch of `handle_client`, for a
client holding slot `pid` in `room` asking for column `col`:
ended rooms get ERROR "game ended"; a wrong-slot move, an out-of-range
column or a full column get INVALID and leave the room untouched;
otherwise the drop is applied, ACK is sent, then the win check runs
(broadcasting UPDATE and WIN and ending the room), then the draw check
(UPDATE and DRAW), and otherwise the turn flips and UPDATE is broadcast. -/
def handle_move (room : Room) (pid : Nat) (col : Int) : MoveRes :=
  if room.ended then ⟨[.error "game ended"], room⟩
  else if pid ≠ room.current then ⟨[.invalid "not your turn"], room⟩
  else if 0 ≤ col ∧ col < (COLS : Int) then
    match board_drop room.board col.toNat pid with
    | (none, _) => ⟨[.invalid "column full"], room⟩
    | (some row, b2) =>
      if check_win b2 (row : Int) col pid then
        ⟨[.ack, .update b2 room.current, .win pid],
          { room with board := b2, ended := true }⟩
      else if check_draw b2 then
        ⟨[.ack, .update b2 room.current, .draw],
          { room with board := b2, ended := true }⟩
      else
        ⟨[.ack, .update b2 (other room.current)],
          { room with board := b2, current := other room.current }⟩
  else ⟨[.invalid "invalid column"], room⟩

/-- A move was accepted exactly when its first reply is the ACK of
server.py line 398. -/
def moveAccepted (res : MoveRes) : Bool := res.msgs.head? == some SrvMsg.ack

/-- Fold one inbound MOVE into (room state, slot of the last accepted
mover). -/
def stepGame (s : Room × Option Nat) (m : Nat × Int) : Room × Option Nat :=
  let res := handle_move s.1 m.1 m.2
  (res.room, if moveAccepted res then some m.1 else s.2)

/-- Run a whole inbound MOVE sequence from a fresh room; returns the final
room and the slot of the last accepted mover (if any move was accepted). -/
def run_game (ms : List (Nat × Int)) : Room × Option Nat :=
  ms.foldl stepGame (Room.init, none)

/-- The reply lists produced by a sequence of MOVEs, one list per move. -/
def run_trace : Room → List (Nat × Int) → List (List SrvMsg)
  | _, [] => []
  | room, m :: ms =>
    let res := handle_move room m.1 m.2
    res.msgs :: run_trace res.room ms

/-- Number of cells of the board holding `q`. -/
def boardCount (b : Board) (q : Nat) : Nat := (b.map fun row => row.count q).sum

/-- Does a reply list contain a WIN broadcast? -/
def hasWin (msgs : List SrvMsg) : Bool :=
  msgs.any fun m => match m with | .win _ => true | _ => false

/-- Is a message an INVALID reply? -/
def isInvalidMsg : SrvMsg → Bool
  | .invalid _ => true
  | _ => false

/-- The `next_turn` fields of the UPDATE broadcasts in a reply list
(server.py line 191). -/
def updateTurns (msgs : List SrvMsg) : List Nat :=
  msgs.filterMap fun m => match m with | .update _ t => some t | _ => none

/-- Grid-engine-level scenario: repeatedly drop pieces for `pid` into the
given columns, recording for each drop the filled row and the result of
`check_win` at the just-filled cell. -/
def dropsWithWin (pid : Nat) : Board → List Nat → List (Option Nat × Bool)
  | _, [] => []
  | b, c :: cs =>
    match board_drop b c pid with
    | (none, b2) => (none, false) :: dropsWithWin pid b2 cs
    | (some r, b2) =>
      (some r, check_win b2 (r : Int) (c : Int) pid) :: dropsWithWin pid b2 cs

/-- The specification's notion of a win at `(r, c)`: the window of four
consecutive cells along axis `(dr, dc)` whose `k`-th cell is `(r, c)`
consists of in-bounds cells all holding `pid`. -/
def winLineAt (b : Board) (pid : Nat) (r c dr dc : Int) (k : Nat) : Prop :=
  ∀ i : Nat, i < 4 →
    cellOk b pid (r + ((i : Int) - (k : Int)) * dr) (c + ((i : Int) - (k : Int)) * dc) = true

/-- The claim's win condition: four (or more) contiguous `pid` cells lie
along the horizontal, vertical or either diagonal axis through `(r, c)`,
the run containing `(r, c)` itself. -/
def specWin (b : Board) (r c : Int) (pid : Nat) : Prop :=
  ∃ d ∈ directions, ∃ k < 4, winLineAt b pid r c d.1 d.2 k

instance (b : Board) (pid : Nat) (r c dr dc : Int) (k : Nat) :
    Decidable (winLineAt b pid r c dr dc k) := by
  unfold winLineAt; infer_instance

instance (b : Board) (r c : Int) (pid : Nat) : Decidable (specWin b r c pid) := by
  unfold specWin; infer_instance

/-- A well-formed board: 6 rows of 7 cells, as built by `init_board`. -/
def WF (b : Board) : Prop := b.length = ROWS ∧ ∀ row ∈ b, row.length = COLS

/-- A waiting-queue entry as the matchmaker sees it: an identity plus its
liveness flag at dequeue time (server.py `ClientConnection.alive`). -/
structure Cand where
  id : Nat
  alive : Bool
deriving DecidableEq

/-- server.py lines 214-218 / 220-222: `p1 = waiting_queue.get()` followed
by `while not p1.alive: p1 = waiting_queue.get()` — discard dead entries
until a live candidate is found, returning it and the rest of the queue;
`none` when the queue runs out (the real loop would block there). -/
def dequeue_live : List Cand → Option (Cand × List Cand)
  | [] => none
  | c :: rest => if c.alive then some (c, rest) else dequeue_live rest

/-- The observable actions of one matchmaker pairing, in program order:
the room-table registration and the per-member sends. -/
inductive MMEvent where
  | register (roomId : Nat)
  | matched (candId slot : Nat) (firstTurn : Bool)
  | update (candId : Nat)
deriving DecidableEq

/-- Everything except the registration is a message sent to a member. -/
def isSendEvent : MMEvent → Bool
  | .register _ => false
  | _ => true

/-- Result of one matchmaker pairing round. -/
structure MMRound where
  p1 : Cand
  p2 : Cand
  rest : List Cand
  room : Room
  slot1Id : Nat
  slot2Id : Nat
  events : List MMEvent
deriving DecidableEq

/-- server.py lines 211-232, one iteration of `matchmaker_loop`: dequeue a
live candidate twice (skipping dead entries), create the `Room` with the
first survivor in slot 1 and the second in slot 2, register it in the
`rooms` table, then send MATCHED to each member (`first_turn` true only
for slot 1) and broadcast the initial UPDATE to slot 1 then slot 2. -/
def matchmaker_round (q : List Cand) (rid : Nat) : Option MMRound :=
  match dequeue_live q with
  | none => none
  | some (p1, q1) =>
    match dequeue_live q1 with
    | none => none
    | some (p2, q2) =>
      some { p1 := p1, p2 := p2, rest := q2, room := Room.init,
             slot1Id := p1.id, slot2Id := p2.id,
             events := [.register rid, .matched p1.id 1 true, .matched p2.id 2 false,
                        .update p1.id, .update p2.id] }

/-- An inbound line of the per-client read loop, as relevant to the
malformed-JSON claim: a line that fails JSON parsing, or a well-formed
PING message. -/
inductive InLine where
  | malformed
  | ping
deriving DecidableEq

/-- A successfully parsed client message (only PING is needed here). -/
inductive ClientMsg where
  | ping
deriving DecidableEq

/-- server.py lines 92-118, `recv_line` on one complete line: malformed
JSON sends ERROR "bad json" to the peer and returns `none` (the same
sentinel as a disconnect); a valid message is returned parsed. -/
def recv_line : InLine → List SrvMsg × Option ClientMsg
  | .malformed => ([.error "bad json"], none)
  | .ping => ([], some .ping)

/-- server.py lines 327-341, the main per-client read loop restricted to
the messages above: each iteration reads a line; a `none` result breaks
the loop (after which line 427 closes the connection — the Bool result is
true when the connection ends closed); a PING is answered with PONG.
Exhausting the input models the peer closing the socket. -/
def client_loop : List InLine → List SrvMsg × Bool
  | [] => ([], true)
  | l :: rest =>
    match recv_line l with
    | (sent, none) => (sent, true)
    | (sent, some .ping) =>
      let res := client_loop rest
      (sent ++ SrvMsg.pong :: res.1, res.2)

/-- The observable effect of one `ClientConnection.send` call
(server.py lines 77-90): whether the connection is alive afterwards, how
many socket writes were attempted, what was delivered, and whether an
exception escaped to the caller.  The whole body runs inside
`try/except Exception`, so nothing ever escapes; a failed `sendall`
(modelled by `socketOk = false`) marks the connection dead and is not
retried. -/
structure SendEffect where
  newAlive : Bool
  attempts : Nat
  delivered : Option (String × String)
  raisedToCaller : Bool
deriving DecidableEq

/-- server.py lines 77-90: `ClientConnection.send` for a message of the
given type tag and payload, on a connection whose liveness flag is
`alive`, and whose socket write succeeds iff `socketOk`. -/
def conn_send (msgType payload : String) (alive socketOk : Bool) : SendEffect :=
  if alive = false then ⟨alive, 0, none, false⟩
  else if socketOk then ⟨alive, 1, some (msgType, payload), false⟩
  else ⟨false, 1, none, false⟩

/-- The C1 concrete scenario at session level: slot 1 builds row 5,
columns 0-3, slot 2 plays column 6 in between. -/
def winSeq : List (Nat × Int) := [(1, 0), (2, 6), (1, 1), (2, 6), (1, 2), (2, 6), (1, 3)]

/-- A sequence that fills column 0 completely without a win, then lets
slot 1 win vertically in column 1: afterwards the room has ended and
column 0 is full. -/
def fullColSeq : List (Nat × Int) :=
  [(1, 0), (2, 0), (1, 0), (2, 0), (1, 0), (2, 0),
   (1, 1), (2, 2), (1, 1), (2, 2), (1, 1), (2, 2), (1, 1)]

/-- A board with four slot-1 pieces at row 5, columns 0-3. -/
def demoBoard : Board :=
  [[0, 0, 0, 0, 0, 0, 0],
   [0, 0, 0, 0, 0, 0, 0],
   [0, 0, 0, 0, 0, 0, 0],
   [0, 0, 0, 0, 0, 0, 0],
   [0, 0, 0, 0, 0, 0, 0],
   [1, 1, 1, 1, 0, 0, 0]]

/-- The board of `winSeq` after six moves, used by several witnesses. -/
def room6 : Room := (run_game (winSeq.take 6)).1

/-! ### Branch lemmas for `handle_move` -/

theorem hm_ended {room : Room} {pid : Nat} {col : Int} (h : room.ended = true) :
    handle_move room pid col = ⟨[.error "game ended"], room⟩ := by
  simp [handle_move, h]

theorem hm_wrong_turn {room : Room} {pid : Nat} {col : Int}
    (h1 : room.ended = false) (h2 : pid ≠ room.current) :
    handle_move room pid col = ⟨[.invalid "not your turn"], room⟩ := by
  simp [handle_move, h1, h2]

theorem hm_bad_col {room : Room} {pid : Nat} {col : Int}
    (h1 : room.ended = false) (h2 : pid = room.current)
    (h3 : ¬(0 ≤ col ∧ col < (COLS : Int))) :
    handle_move room pid col = ⟨[.invalid "invalid column"], room⟩ := by
  subst h2; simp [handle_move, h1, h3]

theorem hm_full {room : Room} {pid : Nat} {col : Int} {b : Board}
    (h1 : room.ended = false) (h2 : pid = room.current)
    (h3 : 0 ≤ col ∧ col < (COLS : Int))
    (h4 : board_drop room.board col.toNat pid = (none, b)) :
    handle_move room pid col = ⟨[.invalid "column full"], room⟩ := by
  subst h2; simp [handle_move, h1, h3, h4]

theorem hm_win {room : Room} {pid : Nat} {col : Int} {row : Nat} {b2 : Board}
    (h1 : room.ended = false) (h2 : pid = room.current)
    (h3 : 0 ≤ col ∧ col < (COLS : Int))
    (h4 : board_drop room.board col.toNat pid = (some row, b2))
    (h5 : check_win b2 (row : Int) col pid = true) :
    handle_move room pid col =
      ⟨[.ack, .update b2 room.current, .win pid],
        { room with board := b2, ended := true }⟩ := by
  subst h2; simp [handle_move, h1, h3, h4, h5]

theorem hm_draw {room : Room} {pid : Nat} {col : Int} {row : Nat} {b2 : Board}
    (h1 : room.ended = false) (h2 : pid = room.current)
    (h3 : 0 ≤ col ∧ col < (COLS : Int))
    (h4 : board_drop room.board col.toNat pid = (some row, b2))
    (h5 : check_win b2 (row : Int) col pid = false)
    (h6 : check_draw b2 = true) :
    handle_move room pid col =
      ⟨[.ack, .update b2 room.current, .draw],
        { room with board := b2, ended := true }⟩ := by
  subst h2; simp [handle_move, h1, h3, h4, h5, h6]

theorem hm_cont {room : Room} {pid : Nat} {col : Int} {row : Nat} {b2 : Board}
    (h1 : room.ended = false) (h2 : pid = room.current)
    (h3 : 0 ≤ col ∧ col < (COLS : Int))
    (h4 : board_drop room.board col.toNat pid = (some row, b2))
    (h5 : check_win b2 (row : Int) col pid = false)
    (h6 : check_draw b2 = false) :
    handle_move room pid col =
      ⟨[.ack, .update b2 (other room.current)],
        { room with board := b2, current := other room.current }⟩ := by
  subst h2; simp [handle_move, h1, h3, h4, h5, h6]

theorem other_cases (pid : Nat) : other pid = 1 ∨ other pid = 2 := by
  unfold other; split <;> simp

theorem other_ne (pid : Nat) : other pid ≠ pid := by
  unfold other; split <;> omega

/-! ### `board_drop` characterization -/

theorem board_drop_aux_some :
    ∀ (L : List Nat) (b : Board) (col pid r : Nat) (b2 : Board),
      board_drop_aux b col pid L = (some r, b2) →
      r ∈ L ∧ getCell b r col = 0 ∧ b2 = setCell b r col pid := by
  intro L
  induction L with
  | nil => intro b col pid r b2 h; simp [board_drop_aux] at h
  | cons a t ih =>
    intro b col pid r b2 h
    by_cases ha : getCell b a col = 0
    · simp only [board_drop_aux, if_pos ha, Prod.mk.injEq, Option.some.injEq] at h
      obtain ⟨rfl, rfl⟩ := h
      exact ⟨List.mem_cons_self a t, ha, rfl⟩
    · simp only [board_drop_aux, if_neg ha] at h
      obtain ⟨hm, hc, hs⟩ := ih b col pid r b2 h
      exact ⟨List.mem_cons_of_mem _ hm, hc, hs⟩

theorem board_drop_some {b : Board} {col pid r : Nat} {b2 : Board}
    (h : board_drop b col pid = (some r, b2)) :
    r < ROWS ∧ getCell b r col = 0 ∧ b2 = setCell b r col pid := by
  obtain ⟨hm, hc, hs⟩ := board_drop_aux_some _ b col pid r b2 h
  exact ⟨List.mem_range.mp (List.mem_reverse.mp hm), hc, hs⟩

theorem board_drop_aux_full :
    ∀ (L : List Nat) (b : Board) (col pid : Nat),
      (∀ r ∈ L, getCell b r col ≠ 0) → board_drop_aux b col pid L = (none, b) := by
  intro L
  induction L with
  | nil => intro b col pid _; rfl
  | cons a t ih =>
    intro b col pid h
    simp only [board_drop_aux, if_neg (h a (List.mem_cons_self a t))]
    exact ih b col pid fun r hr => h r (List.mem_cons_of_mem _ hr)

theorem board_drop_full {b : Board} {col pid : Nat}
    (h : ∀ r, r < ROWS → getCell b r col ≠ 0) :
    board_drop b col pid = (none, b) := by
  apply board_drop_aux_full
  intro r hr
  exact h r (List.mem_range.mp (List.mem_reverse.mp hr))

theorem board_drop_aux_found :
    ∀ (L : List Nat) (b : Board) (col pid r : Nat),
      L.Pairwise (· > ·) → r ∈ L → getCell b r col = 0 →
      (∀ x ∈ L, r < x → getCell b x col ≠ 0) →
      board_drop_aux b col pid L = (some r, setCell b r col pid) := by
  intro L
  induction L with
  | nil => intro b col pid r _ hm; simp at hm
  | cons a t ih =>
    intro b col pid r hp hm h0 habove
    by_cases ha : getCell b a col = 0
    · have hra : r = a := by
        rcases List.mem_cons.mp hm with h | h
        · exact h
        · have hgt : a > r := (List.pairwise_cons.mp hp).1 r h
          exact absurd ha (habove a (List.mem_cons_self a t) hgt)
      subst hra
      simp only [board_drop_aux, if_pos h0]
    · have hr : r ∈ t := by
        rcases List.mem_cons.mp hm with h | h
        · subst h; exact absurd h0 ha
        · exact h
      simp only [board_drop_aux, if_neg ha]
      exact ih b col pid r (List.pairwise_cons.mp hp).2 hr h0
        fun x hx => habove x (List.mem_cons_of_mem _ hx)

theorem board_drop_lowest {b : Board} {col : Nat} (pid : Nat) {r : Nat}
    (hr : r < ROWS) (h0 : getCell b r col = 0)
    (habove : ∀ x, r < x → x < ROWS → getCell b x col ≠ 0) :
    board_drop b col pid = (some r, setCell b r col pid) := by
  apply board_drop_aux_found
  · decide
  · exact List.mem_reverse.mpr (List.mem_range.mpr hr)
  · exact h0
  · intro x hx hlt
    exact habove x hlt (List.mem_range.mp (List.mem_reverse.mp hx))

/-! ### Cell get/set lemmas -/

theorem getD_mem {b : Board} {r : Nat} (h : r < b.length) : b.getD r [] ∈ b := by
  rw [List.getD_eq_getElem?_getD, List.getElem?_eq_getElem h]
  exact List.getElem_mem h

theorem getD_set_lt {α : Type} (l : List α) (i : Nat) (a d : α) (h : i < l.length) :
    (l.set i a).getD i d = a := by
  rw [List.getD_eq_getElem?_getD, List.getElem?_set_self h]; rfl

theorem getD_set_ne {α : Type} (l : List α) (i j : Nat) (a d : α) (h : i ≠ j) :
    (l.set i a).getD j d = l.getD j d := by
  rw [List.getD_eq_getElem?_getD, List.getElem?_set_ne h, ← List.getD_eq_getElem?_getD]

theorem getCell_setCell_self {b : Board} {r c v : Nat} (hr : r < b.length)
    (hc : c < (b.getD r []).length) :
    getCell (setCell b r c v) r c = v := by
  unfold getCell setCell
  rw [getD_set_lt _ _ _ _ hr, getD_set_lt _ _ _ _ hc]

theorem getCell_setCell_ne {b : Board} {r c v r' c' : Nat}
    (hr : r < b.length) (h : ¬(r' = r ∧ c' = c)) :
    getCell (setCell b r c v) r' c' = getCell b r' c' := by
  unfold getCell setCell
  by_cases hrr : r' = r
  · subst hrr
    have hcc : c ≠ c' := fun hcc => h ⟨rfl, hcc.symm⟩
    rw [getD_set_lt _ _ _ _ hr, getD_set_ne _ _ _ _ _ hcc]
  · rw [getD_set_ne _ _ _ _ _ (fun hx => hrr hx.symm)]

/-! ### Piece counting -/

theorem count_set_of_getD_zero :
    ∀ (l : List Nat) (i v q : Nat), i < l.length → l.getD i 0 = 0 → q ≠ 0 →
      (l.set i v).count q = l.count q + (if v = q then 1 else 0) := by
  intro l
  induction l with
  | nil => intro i v q h; simp at h
  | cons a t ih =>
    intro i v q hi h0 hq
    cases i with
    | zero =>
      have ha : a = 0 := by simpa using h0
      subst ha
      simp only [List.set]
      rw [List.count_cons, List.count_cons]
      have : ¬((0 : Nat) == q) = true := by simpa using Ne.symm hq
      simp only [this, if_false]
      by_cases hv : v = q
      · subst hv; simp
      · have : ¬(v == q) = true := by simpa using hv
        simp [this, hv]
    | succ j =>
      simp only [List.set]
      rw [List.count_cons, List.count_cons]
      have hj : j < t.length := by simpa using hi
      have h0' : t.getD j 0 = 0 := by simpa using h0
      rw [ih j v q hj h0' hq]
      omega

theorem sum_map_set :
    ∀ (b : Board) (r : Nat) (nr : List Nat) (f : List Nat → Nat), r < b.length →
      ((b.set r nr).map f).sum + f (b.getD r []) = (b.map f).sum + f nr := by
  intro b
  induction b with
  | nil => intro r nr f h; simp at h
  | cons row rows ih =>
    intro r nr f h
    cases r with
    | zero => simp only [List.set, List.map, List.sum_cons, List.getD_cons_zero]; omega
    | succ j =>
      simp only [List.set, List.map, List.sum_cons, List.getD_cons_succ]
      have := ih j nr f (by simpa using h)
      omega

theorem boardCount_setCell_eq {b : Board} {r c v : Nat} (hr : r < b.length)
    (hc : c < (b.getD r []).length) (h0 : getCell b r c = 0) (hv : v ≠ 0) :
    boardCount (setCell b r c v) v = boardCount b v + 1 := by
  unfold getCell at h0
  have key : ((b.set r ((b.getD r []).set c v)).map (fun row => row.count v)).sum
        + (b.getD r []).count v
      = (b.map (fun row => row.count v)).sum + ((b.getD r []).set c v).count v :=
    sum_map_set b r ((b.getD r []).set c v) (fun row => row.count v) hr
  have hcnt := count_set_of_getD_zero (b.getD r []) c v v hc h0 hv
  rw [if_pos rfl] at hcnt
  rw [hcnt] at key
  unfold boardCount setCell
  omega

theorem boardCount_setCell_ne {b : Board} {r c v q : Nat} (hr : r < b.length)
    (hc : c < (b.getD r []).length) (h0 : getCell b r c = 0)
    (hq0 : q ≠ 0) (hqv : v ≠ q) :
    boardCount (setCell b r c v) q = boardCount b q := by
  unfold getCell at h0
  have key : ((b.set r ((b.getD r []).set c v)).map (fun row => row.count q)).sum
        + (b.getD r []).count q
      = (b.map (fun row => row.count q)).sum + ((b.getD r []).set c v).count q :=
    sum_map_set b r ((b.getD r []).set c v) (fun row => row.count q) hr
  have hcnt := count_set_of_getD_zero (b.getD r []) c v q hc h0 hq0
  rw [if_neg hqv] at hcnt
  rw [hcnt] at key
  unfold boardCount setCell
  omega

/-! ### Well-formedness -/

theorem WF_init : WF init_board := by
  constructor
  · rfl
  · intro row h
    have := List.eq_of_mem_replicate h
    subst this; rfl

theorem WF_setCell {b : Board} (hwf : WF b) {r : Nat} (hr : r < ROWS) (c v : Nat) :
    WF (setCell b r c v) := by
  obtain ⟨hlen, hrows⟩ := hwf
  constructor
  · simp [setCell, hlen]
  · intro row hmem
    rcases List.mem_or_eq_of_mem_set hmem with h | h
    · exact hrows _ h
    · subst h
      rw [List.length_set]
      exact hrows _ (getD_mem (by omega))

theorem WF_row_len {b : Board} (hwf : WF b) {r : Nat} (hr : r < ROWS) :
    (b.getD r []).length = COLS := by
  have hlen := hwf.1
  exact hwf.2 _ (getD_mem (by omega))

/-! ### `countDir` characterization and the win-detection equivalence -/

theorem countDir_ok (b : Board) (pid : Nat) (dr dc : Int) :
    ∀ (f : Nat) (rr cc : Int) (i : Nat), i < countDir b pid dr dc f rr cc →
      cellOk b pid (rr + (i : Int) * dr) (cc + (i : Int) * dc) = true := by
  intro f
  induction f with
  | zero => intro rr cc i h; simp [countDir] at h
  | succ n ih =>
    intro rr cc i h
    by_cases hok : cellOk b pid rr cc = true
    · rw [countDir, if_pos hok] at h
      cases i with
      | zero => simpa using hok
      | succ j =>
        have hj : j < countDir b pid dr dc n (rr + dr) (cc + dc) := by omega
        have hc := ih (rr + dr) (cc + dc) j hj
        have e1 : rr + ((j + 1 : Nat) : Int) * dr = rr + dr + (j : Int) * dr := by
          push_cast; ring
        have e2 : cc + ((j + 1 : Nat) : Int) * dc = cc + dc + (j : Int) * dc := by
          push_cast; ring
        rw [e1, e2]
        exact hc
    · rw [countDir, if_neg hok] at h
      omega

theorem countDir_ge (b : Board) (pid : Nat) (dr dc : Int) :
    ∀ (m f : Nat) (rr cc : Int), m ≤ f →
      (∀ i : Nat, i < m → cellOk b pid (rr + (i : Int) * dr) (cc + (i : Int) * dc) = true) →
      m ≤ countDir b pid dr dc f rr cc := by
  intro m
  induction m with
  | zero => intro f rr cc _ _; omega
  | succ j ih =>
    intro f rr cc hf hall
    obtain ⟨f', rfl⟩ : ∃ f', f = f' + 1 := ⟨f - 1, by omega⟩
    have h0 : cellOk b pid rr cc = true := by
      have := hall 0 (by omega)
      simpa using this
    rw [countDir, if_pos h0]
    have hrec : j ≤ countDir b pid dr dc f' (rr + dr) (cc + dc) := by
      apply ih f' (rr + dr) (cc + dc) (by omega)
      intro i hi
      have hx := hall (i + 1) (by omega)
      have e1 : rr + ((i + 1 : Nat) : Int) * dr = rr + dr + (i : Int) * dr := by
        push_cast; ring
      have e2 : cc + ((i + 1 : Nat) : Int) * dc = cc + dc + (i : Int) * dc := by
        push_cast; ring
      rw [e1, e2] at hx
      exact hx
    omega

theorem check_win_eq_specWin (b : Board) (r c : Int) (pid : Nat)
    (h : cellOk b pid r c = true) :
    check_win b r c pid = true ↔ specWin b r c pid := by
  unfold check_win specWin
  rw [List.any_eq_true]
  constructor
  · rintro ⟨d, hd, hcount⟩
    rw [decide_eq_true_eq] at hcount
    set fwd := countDir b pid d.1 d.2 (ROWS + COLS) (r + d.1) (c + d.2) with hfwd
    set bwd := countDir b pid (-d.1) (-d.2) (ROWS + COLS) (r - d.1) (c - d.2) with hbwd
    have hok : ∀ j : Int, -(bwd : Int) ≤ j → j ≤ (fwd : Int) →
        cellOk b pid (r + j * d.1) (c + j * d.2) = true := by
      intro j hj1 hj2
      rcases lt_trichotomy j 0 with hneg | hzero | hpos
      · obtain ⟨t, htj, htb⟩ : ∃ t : Nat, (t : Int) = -j - 1 ∧ t < bwd :=
          ⟨(-j - 1).toNat, by omega, by omega⟩
        have hc := countDir_ok b pid (-d.1) (-d.2) (ROWS + COLS) (r - d.1) (c - d.2) t htb
        have e1 : r - d.1 + (t : Int) * (-d.1) = r + j * d.1 := by
          have hj : (t : Int) + 1 = -j := by omega
          calc r - d.1 + (t : Int) * (-d.1) = r - ((t : Int) + 1) * d.1 := by ring
            _ = r + j * d.1 := by rw [hj]; ring
        have e2 : c - d.2 + (t : Int) * (-d.2) = c + j * d.2 := by
          have hj : (t : Int) + 1 = -j := by omega
          calc c - d.2 + (t : Int) * (-d.2) = c - ((t : Int) + 1) * d.2 := by ring
            _ = c + j * d.2 := by rw [hj]; ring
        rw [e1, e2] at hc
        exact hc
      · subst hzero
        simpa using h
      · obtain ⟨t, htj, htb⟩ : ∃ t : Nat, (t : Int) = j - 1 ∧ t < fwd :=
          ⟨(j - 1).toNat, by omega, by omega⟩
        have hc := countDir_ok b pid d.1 d.2 (ROWS + COLS) (r + d.1) (c + d.2) t htb
        have e1 : r + d.1 + (t : Int) * d.1 = r + j * d.1 := by
          have hj : (t : Int) + 1 = j := by omega
          calc r + d.1 + (t : Int) * d.1 = r + ((t : Int) + 1) * d.1 := by ring
            _ = r + j * d.1 := by rw [hj]
        have e2 : c + d.2 + (t : Int) * d.2 = c + j * d.2 := by
          have hj : (t : Int) + 1 = j := by omega
          calc c + d.2 + (t : Int) * d.2 = c + ((t : Int) + 1) * d.2 := by ring
            _ = c + j * d.2 := by rw [hj]
        rw [e1, e2] at hc
        exact hc
    refine ⟨d, hd, min bwd 3, by omega, ?_⟩
    intro i hi
    apply hok ((i : Int) - ((min bwd 3 : Nat) : Int))
    · omega
    · omega
  · rintro ⟨d, hd, k, hk, hline⟩
    refine ⟨d, hd, ?_⟩
    rw [decide_eq_true_eq]
    have hfuel : ROWS + COLS = 13 := rfl
    have hfwd : 3 - k ≤ countDir b pid d.1 d.2 (ROWS + COLS) (r + d.1) (c + d.2) := by
      apply countDir_ge
      · omega
      · intro i hi
        have hx := hline (k + i + 1) (by omega)
        have e1 : r + (((k + i + 1 : Nat) : Int) - (k : Int)) * d.1
            = r + d.1 + (i : Int) * d.1 := by push_cast; ring
        have e2 : c + (((k + i + 1 : Nat) : Int) - (k : Int)) * d.2
            = c + d.2 + (i : Int) * d.2 := by push_cast; ring
        rw [e1, e2] at hx
        exact hx
    have hbwd : k ≤ countDir b pid (-d.1) (-d.2) (ROWS + COLS) (r - d.1) (c - d.2) := by
      apply countDir_ge
      · omega
      · intro i hi
        have hx := hline (k - (i + 1)) (by omega)
        have hcast : ((k - (i + 1) : Nat) : Int) = (k : Int) - (i : Int) - 1 := by omega
        have e1 : r + (((k - (i + 1) : Nat) : Int) - (k : Int)) * d.1
            = r - d.1 + (i : Int) * (-d.1) := by rw [hcast]; ring
        have e2 : c + (((k - (i + 1) : Nat) : Int) - (k : Int)) * d.2
            = c - d.2 + (i : Int) * (-d.2) := by rw [hcast]; ring
        rw [e1, e2] at hx
        exact hx
    omega

/-! ### Master case analysis of `handle_move` -/

theorem handle_move_spec (room : Room) (pid : Nat) (col : Int) :
    (moveAccepted (handle_move room pid col) = false ∧
      (handle_move room pid col).room = room ∧
      ((handle_move room pid col).msgs = [.error "game ended"] ∧ room.ended = true ∨
       (∃ reason, (handle_move room pid col).msgs = [.invalid reason]) ∧ room.ended = false))
    ∨
    (moveAccepted (handle_move room pid col) = true ∧ room.ended = false ∧
      pid = room.current ∧
      ∃ row b2, board_drop room.board col.toNat pid = (some row, b2) ∧
        (0 ≤ col ∧ col < (COLS : Int)) ∧
        ((check_win b2 (row : Int) col pid = true ∧
            handle_move room pid col =
              ⟨[.ack, .update b2 room.current, .win pid],
                { room with board := b2, ended := true }⟩) ∨
         (check_win b2 (row : Int) col pid = false ∧ check_draw b2 = true ∧
            handle_move room pid col =
              ⟨[.ack, .update b2 room.current, .draw],
                { room with board := b2, ended := true }⟩) ∨
         (check_win b2 (row : Int) col pid = false ∧ check_draw b2 = false ∧
            handle_move room pid col =
              ⟨[.ack, .update b2 (other room.current)],
                { room with board := b2, current := other room.current }⟩))) := by
  by_cases he : room.ended = true
  · left
    rw [hm_ended he]
    exact ⟨rfl, rfl, Or.inl ⟨rfl, he⟩⟩
  · have he' : room.ended = false := by simpa using he
    by_cases ht : pid = room.current
    · by_cases hcol : 0 ≤ col ∧ col < (COLS : Int)
      · rcases hbd : board_drop room.board col.toNat pid with ⟨o, bb⟩
        cases o with
        | none =>
          left
          rw [hm_full he' ht hcol hbd]
          exact ⟨rfl, rfl, Or.inr ⟨⟨"column full", rfl⟩, he'⟩⟩
        | some row =>
          right
          by_cases hw : check_win bb (row : Int) col pid = true
          · rw [hm_win he' ht hcol hbd hw]
            exact ⟨rfl, he', ht, row, bb, rfl, hcol, Or.inl ⟨hw, rfl⟩⟩
          · have hw' : check_win bb (row : Int) col pid = false := by simpa using hw
            by_cases hd : check_draw bb = true
            · rw [hm_draw he' ht hcol hbd hw' hd]
              exact ⟨rfl, he', ht, row, bb, rfl, hcol, Or.inr (Or.inl ⟨hw', hd, rfl⟩)⟩
            · have hd' : check_draw bb = false := by simpa using hd
              rw [hm_cont he' ht hcol hbd hw' hd']
              exact ⟨rfl, he', ht, row, bb, rfl, hcol, Or.inr (Or.inr ⟨hw', hd', rfl⟩)⟩
      · left
        rw [hm_bad_col he' ht hcol]
        exact ⟨rfl, rfl, Or.inr ⟨⟨"invalid column", rfl⟩, he'⟩⟩
    · left
      rw [hm_wrong_turn he' ht]
      exact ⟨rfl, rfl, Or.inr ⟨⟨"not your turn", rfl⟩, he'⟩⟩

/-! ### The session invariant -/

/-- Invariant carried along a run: a well-formed board, a turn pointer in
{1, 2}, the slot-1/slot-2 piece-count relation driven by the last accepted
mover, and (while the game is running) the turn pointer determined by the
last accepted mover. -/
def GInv (s : Room × Option Nat) : Prop :=
  WF s.1.board ∧
  (s.1.current = 1 ∨ s.1.current = 2) ∧
  boardCount s.1.board 1 = boardCount s.1.board 2 + (if s.2 = some 1 then 1 else 0) ∧
  (s.1.ended = false → s.1.current = (if s.2 = some 1 then 2 else 1))

theorem GInv_init : GInv (Room.init, none) := by
  refine ⟨WF_init, Or.inl rfl, by decide, ?_⟩
  intro _
  simp [Room.init]

theorem stepGame_eq (room : Room) (last : Option Nat) (pid : Nat) (col : Int) :
    stepGame (room, last) (pid, col) =
      ((handle_move room pid col).room,
       if moveAccepted (handle_move room pid col) then some pid else last) := rfl

theorem GInv_step : ∀ (s : Room × Option Nat) (m : Nat × Int), GInv s → GInv (stepGame s m) := by
  rintro ⟨room, last⟩ ⟨pid, col⟩ ⟨hwf, hcur12, hcount, hcurrel⟩
  dsimp only at hwf hcur12 hcount hcurrel
  rw [stepGame_eq]
  rcases handle_move_spec room pid col with
    ⟨hrej, hroomeq, _⟩ | ⟨hacc, he', ht, row, b2, hbd, hcol, hbranch⟩
  · rw [hrej, hroomeq]
    simp only [Bool.false_eq_true, if_false]
    exact ⟨hwf, hcur12, hcount, hcurrel⟩
  · rw [hacc, if_pos rfl]
    obtain ⟨hrow, hcell0, rfl⟩ := (board_drop_some hbd).imp id id
    have hlen : room.board.length = ROWS := hwf.1
    have hrowlen : (room.board.getD row []).length = COLS := WF_row_len hwf hrow
    have hCOLS : COLS = 7 := rfl
    have hCOLSI : (COLS : Int) = 7 := rfl
    have hcolN : col.toNat < COLS := by omega
    have hrb : row < room.board.length := by omega
    have hcb : col.toNat < (room.board.getD row []).length := by omega
    have hwf2 : WF (setCell room.board row col.toNat pid) := WF_setCell hwf hrow _ _
    have hcur := hcurrel he'
    by_cases hl : last = some 1
    · have hpid : pid = 2 := by rw [ht, hcur, if_pos hl]
      subst hpid
      rw [if_pos hl] at hcount
      have hc1 : boardCount (setCell room.board row col.toNat 2) 1 = boardCount room.board 1 :=
        boardCount_setCell_ne hrb hcb hcell0 (by omega) (by omega)
      have hc2 : boardCount (setCell room.board row col.toNat 2) 2 = boardCount room.board 2 + 1 :=
        boardCount_setCell_eq hrb hcb hcell0 (by omega)
      have hifz : (if (some 2 : Option Nat) = some 1 then (1 : Nat) else 0) = 0 := by decide
      rcases hbranch with ⟨_, heq⟩ | ⟨_, _, heq⟩ | ⟨_, _, heq⟩ <;> rw [heq]
      · refine ⟨hwf2, hcur12, ?_, ?_⟩
        · show boardCount (setCell room.board row col.toNat 2) 1
            = boardCount (setCell room.board row col.toNat 2) 2
              + (if (some 2 : Option Nat) = some 1 then 1 else 0)
          rw [hifz]
          omega
        · intro hcontra
          exact Bool.noConfusion hcontra
      · refine ⟨hwf2, hcur12, ?_, ?_⟩
        · show boardCount (setCell room.board row col.toNat 2) 1
            = boardCount (setCell room.board row col.toNat 2) 2
              + (if (some 2 : Option Nat) = some 1 then 1 else 0)
          rw [hifz]
          omega
        · intro hcontra
          exact Bool.noConfusion hcontra
      · refine ⟨hwf2, other_cases _, ?_, ?_⟩
        · show boardCount (setCell room.board row col.toNat 2) 1
            = boardCount (setCell room.board row col.toNat 2) 2
              + (if (some 2 : Option Nat) = some 1 then 1 else 0)
          rw [hifz]
          omega
        · intro _
          show other room.current = if (some 2 : Option Nat) = some 1 then 2 else 1
          rw [if_neg (by decide), ← ht]
          rfl
    · have hpid : pid = 1 := by rw [ht, hcur, if_neg hl]
      subst hpid
      rw [if_neg hl] at hcount
      have hc1 : boardCount (setCell room.board row col.toNat 1) 1 = boardCount room.board 1 + 1 :=
        boardCount_setCell_eq hrb hcb hcell0 (by omega)
      have hc2 : boardCount (setCell room.board row col.toNat 1) 2 = boardCount room.board 2 :=
        boardCount_setCell_ne hrb hcb hcell0 (by omega) (by omega)
      have hifo : (if (some 1 : Option Nat) = some 1 then (1 : Nat) else 0) = 1 := by decide
      rcases hbranch with ⟨_, heq⟩ | ⟨_, _, heq⟩ | ⟨_, _, heq⟩ <;> rw [heq]
      · refine ⟨hwf2, hcur12, ?_, ?_⟩
        · show boardCount (setCell room.board row col.toNat 1) 1
            = boardCount (setCell room.board row col.toNat 1) 2
              + (if (some 1 : Option Nat) = some 1 then 1 else 0)
          rw [hifo]
          omega
        · intro hcontra
          exact Bool.noConfusion hcontra
      · refine ⟨hwf2, hcur12, ?_, ?_⟩
        · show boardCount (setCell room.board row col.toNat 1) 1
            = boardCount (setCell room.board row col.toNat 1) 2
              + (if (some 1 : Option Nat) = some 1 then 1 else 0)
          rw [hifo]
          omega
        · intro hcontra
          exact Bool.noConfusion hcontra
      · refine ⟨hwf2, other_cases _, ?_, ?_⟩
        · show boardCount (setCell room.board row col.toNat 1) 1
            = boardCount (setCell room.board row col.toNat 1) 2
              + (if (some 1 : Option Nat) = some 1 then 1 else 0)
          rw [hifo]
          omega
        · intro _
          show other room.current = if (some 1 : Option Nat) = some 1 then 2 else 1
          rw [if_pos rfl, ← ht]
          rfl

theorem run_game_inv (ms : List (Nat × Int)) : GInv (run_game ms) := by
  unfold run_game
  have main : ∀ (l : List (Nat × Int)) (s : Room × Option Nat),
      GInv s → GInv (l.foldl stepGame s) := by
    intro l
    induction l with
    | nil => intro s h; exact h
    | cons m t ih => intro s h; exact ih _ (GInv_step s m h)
  exact main ms _ GInv_init

/-! ### Matchmaker lemmas -/

theorem dequeue_live_spec : ∀ (q : List Cand) (c : Cand) (rest : List Cand),
    dequeue_live q = some (c, rest) →
    c.alive = true ∧ q.filter (fun x => x.alive) = c :: rest.filter (fun x => x.alive) := by
  intro q
  induction q with
  | nil => intro c rest h; simp [dequeue_live] at h
  | cons a t ih =>
    intro c rest h
    by_cases ha : a.alive = true
    · rw [dequeue_live, if_pos ha] at h
      obtain ⟨rfl, rfl⟩ : a = c ∧ t = rest := by simpa using h
      exact ⟨ha, by rw [List.filter_cons_of_pos ha]⟩
    · rw [dequeue_live, if_neg ha] at h
      obtain ⟨hc, hf⟩ := ih c rest h
      refine ⟨hc, ?_⟩
      rw [List.filter_cons_of_neg (by simpa using ha)]
      exact hf

/-! ### Claim theorems -/

/-- Claim C1: `check_win` invoked on the just-filled cell returns true iff
four or more contiguous same-slot cells lie along the horizontal, vertical,
or either diagonal axis through that cell; concretely, dropping slot-1
pieces into columns 0,1,2,3 lands each in row 5 and wins exactly on the
fourth drop, and at session level the fourth slot-1 placement of `winSeq`
broadcasts WIN with winner slot 1 while no earlier move broadcasts a win. -/
theorem C1_check_win_correct :
    (∀ (b : Board) (r c : Int) (pid : Nat), cellOk b pid r c = true →
      (check_win b r c pid = true ↔ specWin b r c pid)) ∧
    dropsWithWin 1 init_board [0, 1, 2, 3] =
      [(some 5, false), (some 5, false), (some 5, false), (some 5, true)] ∧
    (run_trace Room.init winSeq).map hasWin =
      [false, false, false, false, false, false, true] ∧
    SrvMsg.win 1 ∈ (run_trace Room.init winSeq).getD 6 [] :=
  ⟨check_win_eq_specWin, by decide, by decide, by decide⟩

theorem C1_check_win_correct_witness :
    cellOk demoBoard 1 5 3 = true ∧
    (check_win demoBoard 5 3 1 = true ↔ specWin demoBoard 5 3 1) :=
  ⟨by decide, C1_check_win_correct.1 demoBoard 5 3 1 (by decide)⟩

/-- Claim C2: the turn pointer always equals 1 or 2; a rejected move
changes nothing (board and turn pointer included); and after an accepted
move by a slot, a further move by the same slot is never accepted. -/
theorem C2_turn_pointer :
    (∀ ms : List (Nat × Int),
      (run_game ms).1.current = 1 ∨ (run_game ms).1.current = 2) ∧
    (∀ (room : Room) (pid : Nat) (col : Int),
      moveAccepted (handle_move room pid col) = false →
        (handle_move room pid col).room = room) ∧
    (∀ (room : Room) (pid : Nat) (col col2 : Int),
      moveAccepted (handle_move room pid col) = true →
        moveAccepted (handle_move (handle_move room pid col).room pid col2) = false) := by
  refine ⟨?_, ?_, ?_⟩
  · intro ms
    exact (run_game_inv ms).2.1
  · intro room pid col hrej
    rcases handle_move_spec room pid col with ⟨_, heq, _⟩ | ⟨hacc, _⟩
    · exact heq
    · rw [hacc] at hrej
      exact Bool.noConfusion hrej
  · intro room pid col col2 hacc
    rcases handle_move_spec room pid col with
      ⟨hrej, _⟩ | ⟨_, he', ht, row, b2, hbd, hcol, hbranch⟩
    · rw [hrej] at hacc
      exact Bool.noConfusion hacc
    · rcases hbranch with ⟨_, heq⟩ | ⟨_, _, heq⟩ | ⟨_, _, heq⟩ <;> rw [heq]
      · rw [hm_ended rfl]
        rfl
      · rw [hm_ended rfl]
        rfl
      · have key : ∀ rm : Room, rm.ended = false → pid ≠ rm.current →
            moveAccepted (handle_move rm pid col2) = false := by
          intro rm h1 h2
          rw [hm_wrong_turn h1 h2]
          rfl
        apply key
        · exact he'
        · show pid ≠ other room.current
          rw [ht]
          exact fun hx => other_ne room.current hx.symm

theorem C2_turn_pointer_witness :
    moveAccepted (handle_move Room.init 1 0) = true ∧
    moveAccepted (handle_move (handle_move Room.init 1 0).room 1 3) = false :=
  ⟨by decide, C2_turn_pointer.2.2 Room.init 1 0 3 (by decide)⟩

/-- Claim C3 (amended): a MOVE in an ENDED session is rejected with ERROR
"game ended" (not INVALID); a wrong-slot move, an out-of-range column and
a full column are rejected with INVALID; in every rejection case the room
(board and turn pointer) is unchanged. -/
theorem C3_move_rejections :
    ∀ (room : Room) (pid : Nat) (col : Int),
      (room.ended = true →
        handle_move room pid col = ⟨[.error "game ended"], room⟩) ∧
      (room.ended = false → pid ≠ room.current →
        handle_move room pid col = ⟨[.invalid "not your turn"], room⟩) ∧
      (room.ended = false → pid = room.current → ¬(0 ≤ col ∧ col < (COLS : Int)) →
        handle_move room pid col = ⟨[.invalid "invalid column"], room⟩) ∧
      (room.ended = false → pid = room.current → (0 ≤ col ∧ col < (COLS : Int)) →
        (board_drop room.board col.toNat pid).1 = none →
        handle_move room pid col = ⟨[.invalid "column full"], room⟩) := by
  intro room pid col
  refine ⟨hm_ended, hm_wrong_turn, hm_bad_col, ?_⟩
  intro h1 h2 h3 h4
  rcases hbd : board_drop room.board col.toNat pid with ⟨o, bb⟩
  rw [hbd] at h4
  cases o with
  | none => exact hm_full h1 h2 h3 hbd
  | some r => exact absurd h4 (by simp)

theorem C3_move_rejections_witness :
    (Room.init.ended = false ∧ (2 : Nat) ≠ Room.init.current) ∧
    handle_move Room.init 2 0 = ⟨[SrvMsg.invalid "not your turn"], Room.init⟩ :=
  ⟨⟨rfl, by decide⟩, (C3_move_rejections Room.init 2 0).2.1 rfl (by decide)⟩

/-- Counterexample to claim C3 as stated: in the ENDED session reached by
`winSeq`, a MOVE is answered with ERROR "game ended" and no INVALID reply
is sent, while the claim requires an INVALID reply. -/
theorem C3_counterexample :
    (run_game winSeq).1.ended = true ∧
    (handle_move (run_game winSeq).1 2 0).msgs = [SrvMsg.error "game ended"] ∧
    (handle_move (run_game winSeq).1 2 0).msgs.any isInvalidMsg = false :=
  ⟨by decide, by decide, by decide⟩

/-- Claim C4 (amended): a drop into a full column signals "column full"
and returns the board unchanged; a drop into a non-full column fills
exactly the lowest empty cell of that column and returns its row, leaving
every other cell unchanged; and a MOVE into a full column of a session
that has not ENDED always yields an INVALID reply and leaves the room
unchanged (in an ENDED session the reply is ERROR instead). -/
theorem C4_column_full :
    (∀ (b : Board) (col pid : Nat), (∀ r, r < ROWS → getCell b r col ≠ 0) →
      board_drop b col pid = (none, b)) ∧
    (∀ (b : Board) (col pid r : Nat), WF b → col < COLS → r < ROWS →
      getCell b r col = 0 → (∀ x, r < x → x < ROWS → getCell b x col ≠ 0) →
      (board_drop b col pid).1 = some r ∧
      getCell (board_drop b col pid).2 r col = pid ∧
      (∀ r' c', ¬(r' = r ∧ c' = col) →
        getCell (board_drop b col pid).2 r' c' = getCell b r' c')) ∧
    (∀ (room : Room) (col pid : Nat), room.ended = false → col < COLS →
      (∀ r, r < ROWS → getCell room.board r col ≠ 0) →
      (∃ reason, (handle_move room pid (col : Int)).msgs = [SrvMsg.invalid reason]) ∧
      (handle_move room pid (col : Int)).room = room) := by
  refine ⟨?_, ?_, ?_⟩
  · intro b col pid h
    exact board_drop_full h
  · intro b col pid r hwf hcol hr h0 habove
    have hdrop := board_drop_lowest pid hr h0 habove
    rw [hdrop]
    have hROWS : ROWS = 6 := rfl
    have hlen := hwf.1
    have hrb : r < b.length := by omega
    have hrl := WF_row_len hwf hr
    have hcb : col < (b.getD r []).length := by omega
    refine ⟨rfl, getCell_setCell_self hrb hcb, ?_⟩
    intro r' c' hne
    exact getCell_setCell_ne hrb hne
  · intro room col pid he hcol hfull
    have htn : ((col : Int)).toNat = col := by omega
    have hnone : board_drop room.board ((col : Int)).toNat pid = (none, room.board) := by
      rw [htn]
      exact board_drop_full hfull
    by_cases ht : pid = room.current
    · have hrange : 0 ≤ (col : Int) ∧ (col : Int) < (COLS : Int) := by
        have hCOLS : COLS = 7 := rfl
        constructor <;> omega
      rw [hm_full he ht hrange hnone]
      exact ⟨⟨"column full", rfl⟩, rfl⟩
    · rw [hm_wrong_turn he ht]
      exact ⟨⟨"not your turn", rfl⟩, rfl⟩

theorem C4_column_full_witness :
    (run_game (fullColSeq.take 6)).1.ended = false ∧
    (handle_move (run_game (fullColSeq.take 6)).1 2 ((0 : Nat) : Int)).msgs.any
      isInvalidMsg = true ∧
    (handle_move (run_game (fullColSeq.take 6)).1 2 ((0 : Nat) : Int)).room
      = (run_game (fullColSeq.take 6)).1 := by
  have h := C4_column_full.2.2 (run_game (fullColSeq.take 6)).1 0 2
    (by decide) (by decide) (by decide)
  obtain ⟨⟨reason, hmsg⟩, hroom⟩ := h
  refine ⟨by decide, ?_, hroom⟩
  rw [hmsg]
  rfl

/-- Counterexample to claim C4 as stated: in the ENDED session reached by
`fullColSeq`, column 0 is full (the grid engine reports "column full"),
yet a MOVE into it is answered with ERROR "game ended" rather than the
INVALID reply the claim promises for every MOVE into a full column. -/
theorem C4_counterexample :
    (board_drop (run_game fullColSeq).1.board 0 2).1 = none ∧
    (run_game fullColSeq).1.ended = true ∧
    (handle_move (run_game fullColSeq).1 2 0).msgs = [SrvMsg.error "game ended"] ∧
    (handle_move (run_game fullColSeq).1 2 0).msgs.any isInvalidMsg = false :=
  ⟨by decide, by decide, by decide, by decide⟩

/-- Claim C5: on an accepted move the win check runs before the draw
check: if the post-drop board wins at the filled cell the reply is the
WIN broadcast (never DRAW, even on a full board); DRAW is broadcast iff
the top row is full and the move did not win. -/
theorem C5_win_before_draw :
    ∀ (room : Room) (pid : Nat) (col : Int) (row : Nat) (b2 : Board),
      room.ended = false → pid = room.current →
      0 ≤ col → col < (COLS : Int) →
      board_drop room.board col.toNat pid = (some row, b2) →
      ((check_win b2 (row : Int) col pid = true →
          (handle_move room pid col).msgs
            = [.ack, .update b2 room.current, .win pid] ∧
          SrvMsg.draw ∉ (handle_move room pid col).msgs) ∧
       (SrvMsg.draw ∈ (handle_move room pid col).msgs ↔
          check_draw b2 = true ∧ check_win b2 (row : Int) col pid = false)) := by
  intro room pid col row b2 he ht h0 h1 hbd
  have hcol : 0 ≤ col ∧ col < (COLS : Int) := ⟨h0, h1⟩
  constructor
  · intro hw
    rw [hm_win he ht hcol hbd hw]
    refine ⟨rfl, ?_⟩
    intro hmem
    simp at hmem
  · by_cases hw : check_win b2 (row : Int) col pid = true
    · rw [hm_win he ht hcol hbd hw]
      constructor
      · intro hmem
        simp at hmem
      · rintro ⟨_, hfalse⟩
        rw [hw] at hfalse
        exact Bool.noConfusion hfalse
    · have hw' : check_win b2 (row : Int) col pid = false := by simpa using hw
      by_cases hd : check_draw b2 = true
      · rw [hm_draw he ht hcol hbd hw' hd]
        constructor
        · intro _
          exact ⟨hd, hw'⟩
        · intro _
          simp
      · have hd' : check_draw b2 = false := by simpa using hd
        rw [hm_cont he ht hcol hbd hw' hd']
        constructor
        · intro hmem
          simp at hmem
        · rintro ⟨hdt, _⟩
          rw [hd'] at hdt
          exact Bool.noConfusion hdt

theorem C5_win_before_draw_witness :
    (room6.ended = false ∧ (1 : Nat) = room6.current ∧
      board_drop room6.board ((3 : Int)).toNat 1
        = (some 5, (board_drop room6.board ((3 : Int)).toNat 1).2)) ∧
    ((check_win (board_drop room6.board ((3 : Int)).toNat 1).2 ((5 : Nat) : Int) 3 1 = true →
        (handle_move room6 1 3).msgs
          = [SrvMsg.ack,
             SrvMsg.update (board_drop room6.board ((3 : Int)).toNat 1).2 room6.current,
             SrvMsg.win 1] ∧
        SrvMsg.draw ∉ (handle_move room6 1 3).msgs) ∧
     (SrvMsg.draw ∈ (handle_move room6 1 3).msgs ↔
        check_draw (board_drop room6.board ((3 : Int)).toNat 1).2 = true ∧
        check_win (board_drop room6.board ((3 : Int)).toNat 1).2 ((5 : Nat) : Int) 3 1
          = false)) :=
  ⟨⟨by decide, by decide, by decide⟩,
   C5_win_before_draw room6 1 3 5 _ (by decide) (by decide) (by decide) (by decide)
     (by decide)⟩

/-- Claim C6: along any MOVE sequence from the fresh room, the slot-1 and
slot-2 piece counts differ by at most one, and they differ (by one, in
slot 1's favour) only when slot 1 made the last accepted move. -/
theorem C6_piece_balance :
    ∀ ms : List (Nat × Int),
      (boardCount (run_game ms).1.board 1 = boardCount (run_game ms).1.board 2 ∨
       boardCount (run_game ms).1.board 1 = boardCount (run_game ms).1.board 2 + 1) ∧
      (boardCount (run_game ms).1.board 1 ≠ boardCount (run_game ms).1.board 2 →
        (run_game ms).2 = some 1) := by
  intro ms
  have h := (run_game_inv ms).2.2.1
  by_cases hl : (run_game ms).2 = some 1
  · rw [if_pos hl] at h
    exact ⟨Or.inr h, fun _ => hl⟩
  · rw [if_neg hl] at h
    refine ⟨Or.inl (by omega), ?_⟩
    intro hne
    exact absurd (by omega) hne

theorem C6_piece_balance_witness :
    boardCount (run_game [((1 : Nat), (0 : Int))]).1.board 1
      ≠ boardCount (run_game [((1 : Nat), (0 : Int))]).1.board 2 ∧
    (run_game [((1 : Nat), (0 : Int))]).2 = some 1 :=
  ⟨by decide, (C6_piece_balance [((1 : Nat), (0 : Int))]).2 (by decide)⟩

/-- Claim C7: the matchmaker pairs the first two live candidates of the
queue in arrival order, discards dead candidates without ever putting
them in a session, gives slot 1 (and the first move) to the candidate
dequeued first, and registers the room before sending any message. -/
theorem C7_matchmaker_fifo :
    ∀ (q : List Cand) (rid : Nat) (res : MMRound),
      matchmaker_round q rid = some res →
      q.filter (fun c => c.alive)
        = res.p1 :: res.p2 :: res.rest.filter (fun c => c.alive) ∧
      res.p1.alive = true ∧ res.p2.alive = true ∧
      res.slot1Id = res.p1.id ∧ res.slot2Id = res.p2.id ∧
      res.room.current = 1 ∧
      res.events.head? = some (MMEvent.register rid) ∧
      (∀ e ∈ res.events.tail, isSendEvent e = true) := by
  intro q rid res h
  unfold matchmaker_round at h
  rcases hd1 : dequeue_live q with _ | ⟨p1, q1⟩ <;> rw [hd1] at h <;> dsimp only at h
  · exact Option.noConfusion h
  · rcases hd2 : dequeue_live q1 with _ | ⟨p2, q2⟩ <;> rw [hd2] at h <;> dsimp only at h
    · exact Option.noConfusion h
    · obtain rfl : _ = res := Option.some.inj h
      obtain ⟨ha1, hf1⟩ := dequeue_live_spec q p1 q1 hd1
      obtain ⟨ha2, hf2⟩ := dequeue_live_spec q1 p2 q2 hd2
      refine ⟨?_, ha1, ha2, rfl, rfl, rfl, rfl, ?_⟩
      · rw [hf1, hf2]
      · intro e he
        simp only [List.tail, List.mem_cons, List.not_mem_nil, or_false] at he
        rcases he with rfl | rfl | rfl | rfl <;> rfl

/-- The queue used by the matchmaker witness: two dead candidates
interleaved with three live ones. -/
def demoQueue : List Cand := [⟨0, false⟩, ⟨1, true⟩, ⟨2, false⟩, ⟨3, true⟩, ⟨4, true⟩]

/-- The round the matchmaker produces on `demoQueue`. -/
def demoRound : MMRound :=
  { p1 := ⟨1, true⟩, p2 := ⟨3, true⟩, rest := [⟨4, true⟩], room := Room.init,
    slot1Id := 1, slot2Id := 3,
    events := [.register 99, .matched 1 1 true, .matched 3 2 false,
               .update 1, .update 3] }

theorem C7_matchmaker_fifo_witness :
    matchmaker_round demoQueue 99 = some demoRound ∧
    demoQueue.filter (fun c => c.alive)
      = demoRound.p1 :: demoRound.p2 :: demoRound.rest.filter (fun c => c.alive) ∧
    demoRound.p1.alive = true ∧ demoRound.room.current = 1 ∧
    demoRound.events.head? = some (MMEvent.register 99) := by
  have h := C7_matchmaker_fifo demoQueue 99 demoRound (by decide)
  exact ⟨by decide, h.1, h.2.1, h.2.2.2.2.2.1, h.2.2.2.2.2.2.1⟩

/-- Claim C8 (amended): a malformed JSON line makes `recv_line` send
ERROR "bad json" to the peer, but it then returns the disconnect sentinel,
so the read loop breaks and the connection is closed; subsequent inbound
messages are not processed. -/
theorem C8_bad_json_closes :
    ∀ rest : List InLine,
      client_loop (InLine.malformed :: rest) = ([SrvMsg.error "bad json"], true) := by
  intro rest
  rfl

/-- Counterexample to claim C8 as stated: after a malformed line the
following PING is never answered (no PONG is sent) and the loop reports
the connection closed, although a PING alone would be answered with PONG;
the claim says the read loop continues to process subsequent messages. -/
theorem C8_counterexample :
    client_loop [InLine.malformed, InLine.ping] = ([SrvMsg.error "bad json"], true) ∧
    SrvMsg.pong ∉ (client_loop [InLine.malformed, InLine.ping]).1 ∧
    client_loop [InLine.ping] = ([SrvMsg.pong], true) :=
  ⟨rfl, by decide, rfl⟩

/-- Claim C9: `ClientConnection.send` never lets an exception reach its
caller, and a socket failure on a live connection marks the connection
dead after a single, unretried write attempt. -/
theorem C9_send_no_raise :
    ∀ (msgType payload : String) (alive socketOk : Bool),
      (conn_send msgType payload alive socketOk).raisedToCaller = false ∧
      (alive = true → socketOk = false →
        (conn_send msgType payload alive socketOk).newAlive = false ∧
        (conn_send msgType payload alive socketOk).attempts = 1) := by
  intro msgType payload alive socketOk
  constructor
  · unfold conn_send
    split
    · rfl
    · split <;> rfl
  · rintro rfl rfl
    exact ⟨rfl, rfl⟩

theorem C9_send_no_raise_witness :
    (conn_send "UPDATE" "payload" true false).raisedToCaller = false ∧
    (conn_send "UPDATE" "payload" true false).newAlive = false ∧
    (conn_send "UPDATE" "payload" true false).attempts = 1 := by
  have h := C9_send_no_raise "UPDATE" "payload" true false
  exact ⟨h.1, (h.2 rfl rfl).1, (h.2 rfl rfl).2⟩

/-- Claim C10: an accepted move that wins or draws does not flip the turn
pointer: the room keeps the mover as `current`, and the UPDATE broadcast
of that move reports `next_turn` equal to the mover's slot. -/
theorem C10_no_flip_on_end :
    ∀ (room : Room) (pid : Nat) (col : Int),
      (hasWin (handle_move room pid col).msgs = true ∨
       SrvMsg.draw ∈ (handle_move room pid col).msgs) →
      (handle_move room pid col).room.current = pid ∧
      updateTurns (handle_move room pid col).msgs = [pid] := by
  intro room pid col hend
  rcases handle_move_spec room pid col with
    ⟨_, _, hre⟩ | ⟨_, _, ht, row, b2, hbd, hcol, hbranch⟩
  · exfalso
    rcases hre with ⟨hmsgs, _⟩ | ⟨⟨reason, hmsgs⟩, _⟩ <;> rw [hmsgs] at hend
    · rcases hend with h | h
      · exact Bool.noConfusion h
      · simp at h
    · rcases hend with h | h
      · exact Bool.noConfusion h
      · simp at h
  · rcases hbranch with ⟨_, heq⟩ | ⟨_, _, heq⟩ | ⟨_, _, heq⟩ <;> rw [heq] at hend ⊢
    · refine ⟨ht.symm, ?_⟩
      have hu : updateTurns [SrvMsg.ack, SrvMsg.update b2 room.current, SrvMsg.win pid]
          = [room.current] := rfl
      rw [hu, ← ht]
    · refine ⟨ht.symm, ?_⟩
      have hu : updateTurns [SrvMsg.ack, SrvMsg.update b2 room.current, SrvMsg.draw]
          = [room.current] := rfl
      rw [hu, ← ht]
    · exfalso
      rcases hend with h | h
      · exact Bool.noConfusion h
      · simp at h

theorem C10_no_flip_on_end_witness :
    hasWin (handle_move room6 1 3).msgs = true ∧
    (handle_move room6 1 3).room.current = 1 ∧
    updateTurns (handle_move room6 1 3).msgs = [1] := by
  have h := C10_no_flip_on_end room6 1 3 (Or.inl (by decide))
  exact ⟨by decide, h.1, h.2⟩
